import Mathlib

/-!
Verification of the `gemails` tool (src/main.go): a shallow embedding of the
email/domain deduplication pipeline, the domain-expiry extraction and
classification logic, and the fetch-layer error handling, together with
theorems settling the specification claims.

Strings are modelled as `List Char`.  Go's `map[string]bool` key sets are
modelled as duplicate-free lists with insert-if-absent (`mapInsert`), which is
the key-set semantics of Go map assignment.  The float64 day arithmetic of the
classifier is modelled over exact rationals.
-/

namespace Gemails

/-- Models the `Repository` struct (src/main.go:22-24): only the name field. -/
structure Repository where
  name : List Char
deriving DecidableEq

/-- Models the `Committer` part of the `Commit` struct (src/main.go:29-31). -/
structure Committer where
  email : List Char
deriving DecidableEq

/-- Models the nested `commit` object of the `Commit` struct (src/main.go:28-32). -/
structure CommitData where
  committer : Committer
deriving DecidableEq

/-- Models the `Commit` struct (src/main.go:27-33). -/
structure Commit where
  commit : CommitData
deriving DecidableEq

/-- Models Go's `strings.Split` specialised to a single-character separator
(as used at src/main.go:185): the result is the list of maximal separator-free
segments; it is never empty, and splitting the empty string yields `[[]]`. -/
def splitOnChar (sep : Char) : List Char → List (List Char)
  | [] => [[]]
  | c :: cs =>
    if c = sep then
      [] :: splitOnChar sep cs
    else
      match splitOnChar sep cs with
      | [] => [[c]]
      | p :: ps => (c :: p) :: ps

/-- Models `extractDomainFromEmail` (src/main.go:184-190): split the email on
every `@` and return the second field when there are at least two fields,
otherwise the empty string. -/
def extractDomainFromEmail (email : List Char) : List Char :=
  match splitOnChar '@' email with
  | _ :: p :: _ => p
  | _ => []

/-- Models a `m[k] = true` assignment on a Go `map[string]bool` viewed as a key
set: appends the key when absent, otherwise leaves the set unchanged
(src/main.go:69 and src/main.go:73). -/
def mapInsert (k : List Char) (m : List (List Char)) : List (List Char) :=
  if k ∈ m then m else m ++ [k]

/-- The two deduplication sets of the run: `uniqueEmails` and `uniqueDomains`
(src/main.go:49-50), modelled as duplicate-free lists of strings. -/
structure PipelineState where
  emails : List (List Char)
  domains : List (List Char)
deriving DecidableEq

/-- Both sets start empty (src/main.go:49-50). -/
def initialState : PipelineState :=
  ⟨[], []⟩

/-- Models the body of the commit loop (src/main.go:66-76): skip empty or
already-seen committer emails; otherwise insert the email, derive its domain,
and insert the domain when it is non-empty. -/
def processCommit (s : PipelineState) (c : Commit) : PipelineState :=
  let email := c.commit.committer.email
  if email ≠ [] ∧ email ∉ s.emails then
    let emails' := mapInsert email s.emails
    let domain := extractDomainFromEmail email
    if domain ≠ [] then
      ⟨emails', mapInsert domain s.domains⟩
    else
      ⟨emails', s.domains⟩
  else
    s

/-- The commit loop over one repository's commit list (src/main.go:66-76). -/
def processCommits (s : PipelineState) (l : List Commit) : PipelineState :=
  l.foldl processCommit s

/-- The repository loop (src/main.go:62-77) from an arbitrary starting state:
each repository contributes its commit list in order. -/
def processRepos (s : PipelineState) (repos : List (List Commit)) : PipelineState :=
  repos.foldl processCommits s

/-- The whole pipeline run of `main` (src/main.go:49-77): both sets start
empty, then every repository's commits are consumed in order. -/
def runPipeline (repos : List (List Commit)) : PipelineState :=
  processRepos initialState repos

/-- The committer email carried by a commit record. -/
def Commit.email (c : Commit) : List Char :=
  c.commit.committer.email

/-- Modelled from the spec: the Domain of an email is "the substring after the
first `@` character; undefined/absent if the email contains no `@`". -/
def afterFirstAt : List Char → Option (List Char)
  | [] => none
  | c :: cs => if c = '@' then some cs else afterFirstAt cs

/-- The maximal `@`-free segment at the head of a string; used to state what
`extractDomainFromEmail` actually computes for inputs with several `@`s. -/
def firstSegmentBeforeAt : List Char → List Char
  | [] => []
  | c :: cs => if c = '@' then [] else c :: firstSegmentBeforeAt cs

/-! ### The expiry-date regex of `extractExpiryDateFromWhois`

The Go code compiles the pattern
`(?i)(?:(expiration|expire|expiry)[^\w]*(date|time)[^\w]*[:\s]+)(\d{4}-\d{2}-\d{2})`
(src/main.go:195) and takes the third capture group of the leftmost match
(src/main.go:196-199).  We embed that specific pattern as a backtracking
matcher over `List Char` with Go's leftmost-first (Perl-style) priority:
alternatives are tried left to right and stars are greedy with backtracking.
Case-insensitivity is modelled by ASCII case folding, and the RE2 classes
`\w`, `\s`, `\d` are their ASCII sets. -/

/-- ASCII case folding of a character code, for the `(?i)` flag. -/
def lowerCode (c : Char) : Nat :=
  if 65 ≤ c.toNat ∧ c.toNat ≤ 90 then c.toNat + 32 else c.toNat

/-- The RE2 class `\w`, i.e. `[0-9A-Za-z_]`. -/
def isWordChar (c : Char) : Bool :=
  c.isAlphanum || c = '_'

/-- The complement class `[^\w]`. -/
def notWordChar (c : Char) : Bool :=
  !(isWordChar c)

/-- The RE2 class `\s`, i.e. `[\t\n\f\r ]`. -/
def isSpaceRE (c : Char) : Bool :=
  c = ' ' || c = '\t' || c = '\n' || c = '\x0c' || c = '\r'

/-- The class `[:\s]` of the pattern. -/
def isColonSpace (c : Char) : Bool :=
  c = ':' || isSpaceRE c

/-- Case-insensitive literal-word match at the head of the input; returns the
remaining input on success. -/
def matchPrefixCI : List Char → List Char → Option (List Char)
  | [], s => some s
  | _ :: _, [] => none
  | p :: ps, c :: cs => if lowerCode p = lowerCode c then matchPrefixCI ps cs else none

/-- Greedy star over a single-character class with backtracking into the
continuation `k`: the longest repetition is tried first. -/
def starBT (p : Char → Bool) (k : List Char → Option (List Char)) :
    List Char → Option (List Char)
  | [] => k []
  | c :: cs =>
    if p c then (starBT p k cs).orElse (fun _ => k (c :: cs)) else k (c :: cs)

/-- Greedy plus over a single-character class with backtracking: one mandatory
character followed by a greedy star. -/
def plusBT (p : Char → Bool) (k : List Char → Option (List Char)) :
    List Char → Option (List Char)
  | [] => none
  | c :: cs => if p c then starBT p k cs else none

/-- The tail `\d{4}-\d{2}-\d{2}` of the pattern; returns the ten matched
characters (capture group 3). -/
def matchDateShape : List Char → Option (List Char)
  | y1 :: y2 :: y3 :: y4 :: h1 :: m1 :: m2 :: h2 :: d1 :: d2 :: _ =>
    if y1.isDigit && y2.isDigit && y3.isDigit && y4.isDigit && h1 == '-' &&
        m1.isDigit && m2.isDigit && h2 == '-' && d1.isDigit && d2.isDigit then
      some [y1, y2, y3, y4, h1, m1, m2, h2, d1, d2]
    else
      none
  | _ => none

/-- The part `[^\w]*[:\s]+(\d{4}-\d{2}-\d{2})` after `(date|time)`. -/
def afterDT (r : List Char) : Option (List Char) :=
  starBT notWordChar (fun r3 => plusBT isColonSpace (fun r4 => matchDateShape r4) r3) r

/-- The part `[^\w]*(date|time)[^\w]*[:\s]+(\d{4}-\d{2}-\d{2})` after the
keyword alternative, with left-to-right alternation priority. -/
def expiryTail (rest : List Char) : Option (List Char) :=
  starBT notWordChar
    (fun r1 =>
      ((matchPrefixCI "date".toList r1).bind afterDT).orElse
        (fun _ => (matchPrefixCI "time".toList r1).bind afterDT))
    rest

/-- A match of the whole pattern anchored at the current position, returning
capture group 3 (the date string); keyword alternatives in pattern order. -/
def matchExpiryAt (s : List Char) : Option (List Char) :=
  ((matchPrefixCI "expiration".toList s).bind expiryTail).orElse
    (fun _ =>
      ((matchPrefixCI "expire".toList s).bind expiryTail).orElse
        (fun _ => (matchPrefixCI "expiry".toList s).bind expiryTail))

/-- Models `FindStringSubmatch` for the expiry pattern (src/main.go:196):
the leftmost match wins; returns its date capture group, or `none` when the
text contains no match. -/
def findExpiryMatch : List Char → Option (List Char)
  | [] => matchExpiryAt []
  | c :: cs => (matchExpiryAt (c :: cs)).orElse (fun _ => findExpiryMatch cs)

/-! ### Calendar dates and `time.Parse("2006-01-02", _)` -/

/-- The calendar-date part of Go's `time.Time` as produced by
`time.Parse("2006-01-02", s)`: the clock part is always midnight UTC, so the
date triple determines the instant. -/
structure Date where
  year : Nat
  month : Nat
  day : Nat
deriving DecidableEq

/-- The zero `time.Time` value is 0001-01-01 00:00:00 UTC. -/
def zeroDate : Date :=
  ⟨1, 1, 1⟩

/-- Models `time.Time.IsZero` (src/main.go:168) on parse results: the instant
is zero exactly when the date is 0001-01-01. -/
def dateIsZero (d : Date) : Bool :=
  decide (d = zeroDate)

/-- Go's Gregorian leap-year rule (`isLeap` in the time package). -/
def isLeapYear (y : Nat) : Bool :=
  (y % 4 == 0 && y % 100 != 0) || y % 400 == 0

/-- Go's `daysIn(month, year)`. -/
def daysInMonth (y : Nat) : Nat → Nat
  | 1 => 31
  | 2 => if isLeapYear y then 29 else 28
  | 3 => 31
  | 4 => 30
  | 5 => 31
  | 6 => 30
  | 7 => 31
  | 8 => 31
  | 9 => 30
  | 10 => 31
  | 11 => 30
  | 12 => 31
  | _ => 0

/-- Models `time.Parse("2006-01-02", s)` (src/main.go:200) on ten-character
inputs of the shape produced by the regex: four year digits, two month digits
and two day digits, with Go's range validation (month 1..12, day 1..days in
that month); any other input is a parse error. -/
def parseDate (s : List Char) : Option Date :=
  match s with
  | [y1, y2, y3, y4, h1, m1, m2, h2, d1, d2] =>
    if y1.isDigit && y2.isDigit && y3.isDigit && y4.isDigit && h1 == '-' &&
        m1.isDigit && m2.isDigit && h2 == '-' && d1.isDigit && d2.isDigit then
      let y := (y1.toNat - 48) * 1000 + (y2.toNat - 48) * 100 +
        (y3.toNat - 48) * 10 + (y4.toNat - 48)
      let m := (m1.toNat - 48) * 10 + (m2.toNat - 48)
      let d := (d1.toNat - 48) * 10 + (d2.toNat - 48)
      if 1 ≤ m ∧ m ≤ 12 ∧ 1 ≤ d ∧ d ≤ daysInMonth y m then some ⟨y, m, d⟩ else none
    else
      none
  | _ => none

/-- Models `extractExpiryDateFromWhois` (src/main.go:193-209): find the
leftmost match of the expiry pattern; when there is none, or the matched date
string fails to parse, return the zero time value. -/
def extractExpiryDateFromWhois (text : List Char) : Date :=
  match findExpiryMatch text with
  | none => zeroDate
  | some m =>
    match parseDate m with
    | none => zeroDate
    | some d => d

/-- The condition under which `extractExpiryDateFromWhois` reaches its
`log.Printf("Error parsing expiry date: ...")` branch (src/main.go:202). -/
def hitsParseErrorBranch (text : List Char) : Bool :=
  match findExpiryMatch text with
  | none => false
  | some m => (parseDate m).isNone

/-! ### Days-until-expiry arithmetic and classification

`checkDomainsExpiry` computes `time.Until(expiryDate).Hours() / 24`
(src/main.go:174).  `time.Until` produces an `int64` nanosecond duration that
Go clamps to the `int64` range on overflow; `Hours()` divides by 3.6e12 and
the further division by 24 are float64 operations, modelled here over exact
rationals.  The conversion `int(daysUntilExpiry)` truncates toward zero. -/

/-- Days from 0001-01-01 to the start of year `y` (proleptic Gregorian, as in
Go's internal absolute-date computation for years ≥ 1). -/
def daysBeforeYear (y : Nat) : Int :=
  let n : Int := (y : Int) - 1
  365 * n + n / 4 - n / 100 + n / 400

/-- Days from the start of the year to the start of month `m`. -/
def daysBeforeMonth (y : Nat) : Nat → Nat
  | 0 => 0
  | 1 => 0
  | m + 1 => daysBeforeMonth y m + daysInMonth y m

/-- Days from 0001-01-01 to the given date. -/
def daysSinceEpoch (d : Date) : Int :=
  daysBeforeYear d.year + (daysBeforeMonth d.year d.month : Int) + ((d.day : Int) - 1)

/-- The parsed expiry instant (midnight UTC) in nanoseconds since
0001-01-01 00:00:00 UTC. -/
def dateNs (d : Date) : Int :=
  daysSinceEpoch d * 86400000000000

/-- Smallest `int64` value. -/
def int64Min : Int :=
  -9223372036854775808

/-- Largest `int64` value. -/
def int64Max : Int :=
  9223372036854775807

/-- Models Go `time.Time` subtraction into a `time.Duration`: the nanosecond
difference clamped to the `int64` range. -/
def subClamp (a b : Int) : Int :=
  if a - b < int64Min then int64Min
  else if int64Max < a - b then int64Max
  else a - b

/-- Models `time.Until(expiryDate).Hours() / 24` (src/main.go:174) with the
float64 arithmetic taken exactly: nanoseconds until expiry, divided by
3.6e12, divided by 24. -/
def daysUntilExpiry (nowNs : Int) (d : Date) : ℚ :=
  ((subClamp (dateNs d) nowNs : Int) : ℚ) / 3600000000000 / 24

/-- Models Go's float-to-int conversion `int(daysUntilExpiry)`
(src/main.go:176,178): truncation toward zero, i.e. T-division of the
numerator by the denominator. -/
def ratTrunc (q : ℚ) : Int :=
  q.num.tdiv (q.den : Int)

/-- One console line of `checkDomainsExpiry` (src/main.go:157-181): a WHOIS
error, a missing expiry date, or a classification with the emitted integer
days-left figure. -/
inductive DomainEvent where
  | lookupError (domain : List Char)
  | noExpiry (domain : List Char)
  | expiringSoon (domain : List Char) (expiry : Date) (daysLeft : Int)
  | valid (domain : List Char) (expiry : Date) (daysLeft : Int)
deriving DecidableEq

/-- Models the body of the domain loop of `checkDomainsExpiry`
(src/main.go:158-180): the WHOIS call is abstracted to its observed outcome
(`Except` error or record text). -/
def checkDomain (nowNs : Int) (domain : List Char) (lookup : Except (List Char) (List Char)) :
    DomainEvent :=
  match lookup with
  | .error _ => .lookupError domain
  | .ok text =>
    let expiryDate := extractExpiryDateFromWhois text
    if dateIsZero expiryDate then
      .noExpiry domain
    else
      let days := daysUntilExpiry nowNs expiryDate
      if days < 30 then
        .expiringSoon domain expiryDate (ratTrunc days)
      else
        .valid domain expiryDate (ratTrunc days)

/-- Models `checkDomainsExpiry` (src/main.go:157-181) over the sequence of
domains with their observed WHOIS outcomes: one event per domain, later
domains unaffected by earlier outcomes. -/
def checkDomainsExpiry (nowNs : Int)
    (inputs : List (List Char × Except (List Char) (List Char))) : List DomainEvent :=
  inputs.map (fun p => checkDomain nowNs p.1 p.2)

/-! ### Fetch layer

`sendRequest` (src/main.go:112-139) is modelled on the observed HTTP outcome
(status code and body).  `log.Fatalf` terminates the process and is modelled
as `Except.error`; the Go stdlib fact that `json.Unmarshal` of a `nil` byte
slice always fails ("unexpected end of JSON input") is built in, while
decoding of actual bodies is abstracted into a decoder argument. -/

/-- Models `sendRequest` (src/main.go:112-139): a 409 status logs a warning
and returns `nil` (here `none`); any other non-200 status is fatal; a 200
returns the body. -/
def sendRequest (status : Nat) (body : List Char) : Except (List Char) (Option (List Char)) :=
  if status = 409 then .ok none
  else if status ≠ 200 then .error ("GitHub API returned non-OK status".toList)
  else .ok (some body)

/-- Models `fetchRepos` (src/main.go:88-97): any unmarshal failure — including
the guaranteed failure on a `nil` 409 body — is `log.Fatalf`, hence fatal. -/
def fetchRepos (status : Nat) (body : List Char)
    (dec : List Char → Option (List Repository)) : Except (List Char) (List Repository) :=
  match sendRequest status body with
  | .error e => .error e
  | .ok none => .error ("Error unmarshaling repositories".toList)
  | .ok (some b) =>
    match dec b with
    | none => .error ("Error unmarshaling repositories".toList)
    | some repos => .ok repos

/-- Models `fetchCommits` (src/main.go:100-109): an unmarshal failure —
including the guaranteed failure on a `nil` 409 body — is only logged, and the
still-`nil` commits slice is returned, so the repository contributes zero
commits and the run continues. -/
def fetchCommits (status : Nat) (body : List Char)
    (dec : List Char → Option (List Commit)) : Except (List Char) (List Commit) :=
  match sendRequest status body with
  | .error e => .error e
  | .ok none => .ok []
  | .ok (some b) =>
    match dec b with
    | none => .ok []
    | some commits => .ok commits

/-- Models the repository-selection branch of `main` (src/main.go:52-59): with
a non-empty `-r` flag the single named repository is used, otherwise the full
listing is fetched.  The boolean records whether the `fetchRepos` collaborator
call is made. -/
def selectRepos (repoFlag : List Char) (fetchedRepos : List Repository) :
    List Repository × Bool :=
  if repoFlag ≠ [] then ([⟨repoFlag⟩], false) else (fetchedRepos, true)

/-! ### The pipeline invariant of claim C3 -/

/-- The invariant of the two deduplication sets (src/main.go:66-76): both are
duplicate-free, every stored domain is derived from some stored email, and the
domain set is never larger than the email set. -/
def pipelineInv (s : PipelineState) : Prop :=
  s.emails.Nodup ∧ s.domains.Nodup ∧
    (∀ d ∈ s.domains, ∃ e ∈ s.emails, extractDomainFromEmail e = d) ∧
    s.domains.length ≤ s.emails.length

instance (s : PipelineState) : Decidable (pipelineInv s) := by
  unfold pipelineInv
  infer_instance

/-! ### Lemmas about the deduplication pipeline -/

theorem mem_mapInsert {k x : List Char} {m : List (List Char)} :
    x ∈ mapInsert k m ↔ x ∈ m ∨ x = k := by
  unfold mapInsert
  by_cases h : k ∈ m
  · simp only [if_pos h]
    exact ⟨Or.inl, fun hx => hx.elim id (fun hk => hk ▸ h)⟩
  · simp [if_neg h]

theorem nodup_mapInsert {k : List Char} {m : List (List Char)} (h : m.Nodup) :
    (mapInsert k m).Nodup := by
  unfold mapInsert
  by_cases hk : k ∈ m
  · simpa [if_pos hk] using h
  · simp [if_neg hk, List.nodup_append, h, hk]

theorem length_mapInsert_le {k : List Char} {m : List (List Char)} :
    (mapInsert k m).length ≤ m.length + 1 := by
  unfold mapInsert
  by_cases hk : k ∈ m
  · simp [if_pos hk]
  · simp [if_neg hk]

theorem length_mapInsert_of_not_mem {k : List Char} {m : List (List Char)} (hk : k ∉ m) :
    (mapInsert k m).length = m.length + 1 := by
  simp [mapInsert, if_neg hk]

theorem mem_processCommit_emails {s : PipelineState} {c : Commit} {e : List Char} :
    e ∈ (processCommit s c).emails ↔
      e ∈ s.emails ∨ (e = c.email ∧ c.email ≠ []) := by
  unfold processCommit Commit.email
  by_cases h : c.commit.committer.email ≠ [] ∧ c.commit.committer.email ∉ s.emails
  · rw [if_pos h]
    by_cases hd : extractDomainFromEmail c.commit.committer.email ≠ []
    · rw [if_pos hd]
      simp only [mem_mapInsert]
      tauto
    · rw [if_neg hd]
      simp only [mem_mapInsert]
      tauto
  · rw [if_neg h]
    push_neg at h
    constructor
    · exact Or.inl
    · rintro (he | ⟨rfl, hne⟩)
      · exact he
      · exact h hne

theorem nodup_processCommit_emails {s : PipelineState} {c : Commit}
    (h : s.emails.Nodup) : (processCommit s c).emails.Nodup := by
  unfold processCommit
  by_cases hc : c.commit.committer.email ≠ [] ∧ c.commit.committer.email ∉ s.emails
  · rw [if_pos hc]
    by_cases hd : extractDomainFromEmail c.commit.committer.email ≠ []
    · rw [if_pos hd]; exact nodup_mapInsert h
    · rw [if_neg hd]; exact nodup_mapInsert h
  · rw [if_neg hc]; exact h

theorem mem_processCommits_emails {l : List Commit} {s : PipelineState} {e : List Char} :
    e ∈ (processCommits s l).emails ↔
      e ∈ s.emails ∨ ∃ c ∈ l, c.email = e ∧ c.email ≠ [] := by
  induction l generalizing s with
  | nil => simp [processCommits]
  | cons c l ih =>
    show e ∈ (processCommits (processCommit s c) l).emails ↔ _
    rw [ih, mem_processCommit_emails]
    constructor
    · rintro ((he | ⟨rfl, hne⟩) | ⟨c', hc', rfl, hne⟩)
      · exact Or.inl he
      · exact Or.inr ⟨c, List.mem_cons_self c l, rfl, hne⟩
      · exact Or.inr ⟨c', List.mem_cons_of_mem c hc', rfl, hne⟩
    · rintro (he | ⟨c', hc', rfl, hne⟩)
      · exact Or.inl (Or.inl he)
      · rcases List.mem_cons.mp hc' with rfl | hc'
        · exact Or.inl (Or.inr ⟨rfl, hne⟩)
        · exact Or.inr ⟨c', hc', rfl, hne⟩

theorem nodup_processCommits_emails {l : List Commit} {s : PipelineState}
    (h : s.emails.Nodup) : (processCommits s l).emails.Nodup := by
  induction l generalizing s with
  | nil => exact h
  | cons c l ih => exact ih (nodup_processCommit_emails h)

theorem processRepos_eq_flatten (s : PipelineState) (repos : List (List Commit)) :
    processRepos s repos = processCommits s repos.flatten := by
  induction repos generalizing s with
  | nil => rfl
  | cons cs rs ih =>
    show processRepos (processCommits s cs) rs = processCommits s (cs :: rs).flatten
    rw [ih]
    simp only [processCommits, List.flatten_cons, List.foldl_append]

theorem processCommit_skip {s : PipelineState} {c : Commit}
    (h : c.email = [] ∨ c.email ∈ s.emails) : processCommit s c = s := by
  unfold processCommit
  rw [if_neg]
  unfold Commit.email at h
  tauto

theorem processCommits_skip {l : List Commit} {s : PipelineState}
    (h : ∀ c ∈ l, c.email = [] ∨ c.email ∈ s.emails) : processCommits s l = s := by
  induction l with
  | nil => rfl
  | cons c l ih =>
    show processCommits (processCommit s c) l = s
    rw [processCommit_skip (h c (List.mem_cons_self c l))]
    exact ih (fun c' hc' => h c' (List.mem_cons_of_mem c hc'))

theorem pipelineInv_processCommit {s : PipelineState} {c : Commit}
    (h : pipelineInv s) : pipelineInv (processCommit s c) := by
  obtain ⟨hne, hnd, hder, hlen⟩ := h
  unfold processCommit
  by_cases hc : c.commit.committer.email ≠ [] ∧ c.commit.committer.email ∉ s.emails
  · rw [if_pos hc]
    by_cases hd : extractDomainFromEmail c.commit.committer.email ≠ []
    · rw [if_pos hd]
      refine ⟨nodup_mapInsert hne, nodup_mapInsert hnd, ?_, ?_⟩
      · intro d hdm
        rcases mem_mapInsert.mp hdm with hdm | rfl
        · obtain ⟨e, he, hee⟩ := hder d hdm
          exact ⟨e, mem_mapInsert.mpr (Or.inl he), hee⟩
        · exact ⟨c.commit.committer.email,
            mem_mapInsert.mpr (Or.inr rfl), rfl⟩
      · calc (mapInsert (extractDomainFromEmail c.commit.committer.email) s.domains).length
            ≤ s.domains.length + 1 := length_mapInsert_le
          _ ≤ s.emails.length + 1 := by omega
          _ = (mapInsert c.commit.committer.email s.emails).length :=
            (length_mapInsert_of_not_mem hc.2).symm
    · rw [if_neg hd]
      refine ⟨nodup_mapInsert hne, hnd, ?_, ?_⟩
      · intro d hdm
        obtain ⟨e, he, hee⟩ := hder d hdm
        exact ⟨e, mem_mapInsert.mpr (Or.inl he), hee⟩
      · show s.domains.length ≤ (mapInsert c.commit.committer.email s.emails).length
        rw [length_mapInsert_of_not_mem hc.2]
        omega
  · rw [if_neg hc]
    exact ⟨hne, hnd, hder, hlen⟩

theorem pipelineInv_processCommits {l : List Commit} {s : PipelineState}
    (h : pipelineInv s) : pipelineInv (processCommits s l) := by
  induction l generalizing s with
  | nil => exact h
  | cons c l ih => exact ih (pipelineInv_processCommit h)

/-! ### Lemmas about domain extraction -/

theorem splitOnChar_ne_nil (sep : Char) (l : List Char) : splitOnChar sep l ≠ [] := by
  induction l with
  | nil => simp [splitOnChar]
  | cons c cs ih =>
    unfold splitOnChar
    by_cases h : c = sep
    · simp [h]
    · rw [if_neg h]
      cases hs : splitOnChar sep cs <;> simp

theorem splitOnChar_structure (l : List Char) :
    ∃ t, splitOnChar '@' l = firstSegmentBeforeAt l :: t := by
  induction l with
  | nil => exact ⟨[], rfl⟩
  | cons c cs ih =>
    by_cases h : c = '@'
    · subst h
      exact ⟨splitOnChar '@' cs, by simp [splitOnChar, firstSegmentBeforeAt]⟩
    · obtain ⟨t, ht⟩ := ih
      refine ⟨t, ?_⟩
      unfold splitOnChar firstSegmentBeforeAt
      rw [if_neg h, if_neg h, ht]

theorem extractDomain_cons_ne {c : Char} {cs : List Char} (h : c ≠ '@') :
    extractDomainFromEmail (c :: cs) = extractDomainFromEmail cs := by
  cases hs : splitOnChar '@' cs with
  | nil => exact absurd hs (splitOnChar_ne_nil _ _)
  | cons p ps =>
    cases ps with
    | nil => simp [extractDomainFromEmail, splitOnChar, if_neg h, hs]
    | cons q qs => simp [extractDomainFromEmail, splitOnChar, if_neg h, hs]

/-! ### Truncation toward zero on rationals -/

theorem ratTrunc_eq (q : ℚ) : ratTrunc q = if (0 : ℚ) ≤ q then ⌊q⌋ else ⌈q⌉ := by
  unfold ratTrunc
  by_cases h : (0 : ℚ) ≤ q
  · rw [if_pos h, Rat.floor_def]
    exact Int.tdiv_eq_ediv (Rat.num_nonneg.mpr h) (Int.natCast_nonneg _)
  · rw [if_neg h]
    have hn : (0 : Int) ≤ -q.num := by
      rcases lt_or_le q.num 0 with hlt | hge
      · omega
      · exact absurd (Rat.num_nonneg.mp hge) h
    have hceil : ⌈q⌉ = -⌊-q⌋ := by
      calc ⌈q⌉ = ⌈-(-q)⌉ := by rw [neg_neg]
        _ = -⌊-q⌋ := Int.ceil_neg
    rw [hceil, Rat.floor_def, Rat.num_neg_eq_neg_num, Rat.den_neg_eq_den]
    conv_lhs => rw [show q.num = -(-q.num) from (neg_neg _).symm]
    rw [Int.neg_tdiv, Int.tdiv_eq_ediv hn (Int.natCast_nonneg _)]

/-! ### Claim theorems -/

/-- C1: for every sequence of commit records across all processed
repositories, after the pipeline consumes them the Email Set contains exactly
the distinct non-empty committer-email strings occurring in the input —
membership depends only on which non-empty emails occur, not on order or
repetition count, empty emails are never inserted, and no email is stored
twice. -/
theorem email_set_exactly_distinct_nonempty (repos : List (List Commit)) :
    (runPipeline repos).emails.Nodup ∧
      ∀ e, e ∈ (runPipeline repos).emails ↔
        (e ≠ [] ∧ ∃ cs ∈ repos, ∃ c ∈ cs, c.email = e) := by
  constructor
  · rw [runPipeline, processRepos_eq_flatten]
    exact nodup_processCommits_emails (by simp [initialState])
  · intro e
    rw [runPipeline, processRepos_eq_flatten, mem_processCommits_emails]
    simp only [initialState, List.not_mem_nil, false_or]
    constructor
    · rintro ⟨c, hc, rfl, hne⟩
      obtain ⟨cs, hcs, hccs⟩ := List.mem_flatten.mp hc
      exact ⟨hne, cs, hcs, c, hccs, rfl⟩
    · rintro ⟨hne, cs, hcs, c, hccs, rfl⟩
      exact ⟨c, List.mem_flatten.mpr ⟨cs, hcs, hccs⟩, rfl, hne⟩

/-- C2 (counterexample): for the email `a@b@c`, which contains two `@`
characters, the code derives the domain `b` — the segment between the two
`@`s — and not `b@c`, the substring after the first `@` that the claim
specifies. -/
theorem extractDomain_counterexample_multi_at :
    extractDomainFromEmail ("a@b@c".toList) = "b".toList ∧
      (afterFirstAt ("a@b@c".toList)).getD [] = "b@c".toList ∧
      extractDomainFromEmail ("a@b@c".toList) ≠ (afterFirstAt ("a@b@c".toList)).getD [] := by
  decide

/-- C2 (amended): for every email string, the derived domain is the substring
strictly after the first `@` and strictly before the following `@` when the
email contains a second one (the second field of the `@`-split); no domain is
derived when the email contains no `@`. -/
theorem extractDomain_between_first_two_ats (email : List Char) :
    extractDomainFromEmail email =
      ((afterFirstAt email).map firstSegmentBeforeAt).getD [] := by
  induction email with
  | nil => rfl
  | cons c cs ih =>
    by_cases h : c = '@'
    · subst h
      obtain ⟨t, ht⟩ := splitOnChar_structure cs
      simp [extractDomainFromEmail, splitOnChar, ht, afterFirstAt]
    · rw [extractDomain_cons_ne h, ih]
      simp [afterFirstAt, h]

/-- C3: at every point during and after the pipeline's consumption of commit
records — the initial state satisfies the invariant and processing any further
commit sequence preserves it — every member of the Domain Set is derived from
at least one member of the Email Set, the Domain Set is never larger than the
Email Set, and each email and each domain is stored at most once. -/
theorem pipeline_invariant :
    pipelineInv initialState ∧
      ∀ (s : PipelineState) (l : List Commit),
        pipelineInv s → pipelineInv (processCommits s l) := by
  constructor
  · exact ⟨List.nodup_nil, List.nodup_nil, by simp [initialState], by simp [initialState]⟩
  · intro s l h
    exact pipelineInv_processCommits h

/-- Witness for C3 at a concrete state and commit list. -/
theorem pipeline_invariant_witness :
    pipelineInv (processCommits initialState
      [⟨⟨⟨"a@x.com".toList⟩⟩⟩, ⟨⟨⟨"".toList⟩⟩⟩, ⟨⟨⟨"b@y.org".toList⟩⟩⟩]) :=
  pipeline_invariant.2 initialState _ (by decide)

/-- C4: the pipeline is idempotent — feeding the same repository/commit
sequence through the pipeline a second time, starting from the sets produced
by the first pass, leaves the Email Set and Domain Set unchanged. -/
theorem pipeline_idempotent (repos : List (List Commit)) :
    processRepos (runPipeline repos) repos = runPipeline repos := by
  simp only [runPipeline, processRepos_eq_flatten]
  apply processCommits_skip
  intro c hc
  by_cases h : c.email = []
  · exact Or.inl h
  · exact Or.inr (mem_processCommits_emails.mpr (Or.inr ⟨c, hc, rfl, h⟩))

/-- C8 (counterexample): a conflict (409) on the repository-listing call is
not merely skipped — `sendRequest` does return no data, but `fetchRepos` then
fatally fails to unmarshal the nil body, aborting the run, contrary to the
claim that the run is not aborted; the decoder is irrelevant since it is never
reached. -/
theorem conflict_on_repos_listing_aborts :
    sendRequest 409 [] = Except.ok none ∧
      fetchRepos 409 [] (fun _ => some []) =
        Except.error ("Error unmarshaling repositories".toList) :=
  ⟨rfl, rfl⟩

/-- C8 (amended): a conflict (409) status makes `sendRequest` skip the call
with a warning and return no data; on a commit-listing call the run continues
with that repository contributing zero commits, but on the repository-listing
call the nil body fails to unmarshal and the run aborts. -/
theorem conflict_handling_amended (body : List Char)
    (decR : List Char → Option (List Repository))
    (decC : List Char → Option (List Commit)) :
    sendRequest 409 body = Except.ok none ∧
      fetchCommits 409 body decC = Except.ok [] ∧
      fetchRepos 409 body decR =
        Except.error ("Error unmarshaling repositories".toList) :=
  ⟨rfl, rfl, rfl⟩

/-- C9: when the `-r` flag names a non-empty repository, exactly that one
repository is processed and the full repository-listing collaborator call
(`fetchRepos`) is never made. -/
theorem single_repo_skips_full_listing (repoFlag : List Char)
    (fetched : List Repository) (h : repoFlag ≠ []) :
    selectRepos repoFlag fetched = ([⟨repoFlag⟩], false) := by
  simp [selectRepos, h]

/-- Witness for C9 at a concrete flag value. -/
theorem single_repo_skips_full_listing_witness :
    selectRepos ("myrepo".toList) [⟨"other".toList⟩] =
      ([⟨"myrepo".toList⟩], false) :=
  single_repo_skips_full_listing _ _ (by decide)

/-- C5: for a domain with an extracted (non-zero) expiry date, classification
compares the exact unrounded days-remaining value — nanoseconds until expiry
divided into hours and then by 24 — against the constant 30: strictly below 30
classifies expiring-soon, 30 or above classifies valid, and the emitted
days-remaining figure is that value truncated toward zero (floor for
non-negative values, ceiling for negative ones). -/
theorem classification_threshold_and_trunc (nowNs : Int) (dom text : List Char)
    (d : Date) (q : ℚ)
    (hd : extractExpiryDateFromWhois text = d) (hz : dateIsZero d = false)
    (hq : daysUntilExpiry nowNs d = q) :
    checkDomain nowNs dom (Except.ok text) =
      (if q < 30 then DomainEvent.expiringSoon dom d (ratTrunc q)
       else DomainEvent.valid dom d (ratTrunc q)) ∧
      ratTrunc q = (if (0 : ℚ) ≤ q then ⌊q⌋ else ⌈q⌉) := by
  refine ⟨?_, ratTrunc_eq q⟩
  simp only [checkDomain, hd, hz, hq]
  simp

/-- Witness for C5: with expiry 2100-01-01, a now-instant exactly 29.999 days
earlier classifies expiring-soon with 29 days emitted, and a now-instant
exactly 30.0 days earlier classifies valid with 30 days emitted. -/
theorem classification_threshold_and_trunc_witness :
    checkDomain 66235449686400000000 ("x.com".toList)
        (Except.ok ("Expiry Date: 2100-01-01".toList)) =
      DomainEvent.expiringSoon ("x.com".toList) ⟨2100, 1, 1⟩ 29 ∧
      checkDomain 66235449600000000000 ("x.com".toList)
        (Except.ok ("Expiry Date: 2100-01-01".toList)) =
      DomainEvent.valid ("x.com".toList) ⟨2100, 1, 1⟩ 30 := by
  have h1 := classification_threshold_and_trunc 66235449686400000000
    ("x.com".toList) ("Expiry Date: 2100-01-01".toList) ⟨2100, 1, 1⟩
    ((29999 : ℚ) / 1000) (by decide) (by decide)
    (by norm_num [daysUntilExpiry, dateNs, daysSinceEpoch, daysBeforeYear,
      daysBeforeMonth, daysInMonth, isLeapYear, subClamp, int64Min, int64Max])
  have h2 := classification_threshold_and_trunc 66235449600000000000
    ("x.com".toList) ("Expiry Date: 2100-01-01".toList) ⟨2100, 1, 1⟩ 30
    (by decide) (by decide)
    (by norm_num [daysUntilExpiry, dateNs, daysSinceEpoch, daysBeforeYear,
      daysBeforeMonth, daysInMonth, isLeapYear, subClamp, int64Min, int64Max])
  constructor
  · rw [h1.1, if_pos (by norm_num : (29999 : ℚ) / 1000 < 30), h1.2,
      if_pos (by norm_num : (0 : ℚ) ≤ 29999 / 1000),
      show ⌊(29999 : ℚ) / 1000⌋ = 29 from by norm_num]
  · rw [h2.1, if_neg (by norm_num : ¬((30 : ℚ) < 30)), h2.2,
      if_pos (by norm_num : (0 : ℚ) ≤ 30),
      show ⌊(30 : ℚ)⌋ = 30 from by norm_num]

/-- C6: a domain whose registration-record text contains no match of the
case-insensitive expiry pattern is reported with a "no expiry date found"
event and no classification, crashing nothing: the events of the domains
before and after it are produced exactly as if it were classified. -/
theorem missing_expiry_reports_and_continues (nowNs : Int) (dom text : List Char)
    (pre rest : List (List Char × Except (List Char) (List Char)))
    (h : findExpiryMatch text = none) :
    checkDomainsExpiry nowNs (pre ++ (dom, Except.ok text) :: rest) =
      checkDomainsExpiry nowNs pre ++
        DomainEvent.noExpiry dom :: checkDomainsExpiry nowNs rest := by
  have hmid : checkDomain nowNs dom (Except.ok text) = DomainEvent.noExpiry dom := by
    simp [checkDomain, extractExpiryDateFromWhois, h, dateIsZero]
  simp [checkDomainsExpiry, hmid]

/-- Witness for C6: a middle domain with pattern-free record text yields a
no-expiry event while the surrounding domains are still processed. -/
theorem missing_expiry_reports_and_continues_witness :
    checkDomainsExpiry 0
        ([(("a.com".toList), Except.error ("down".toList))] ++
          (("b.com".toList), Except.ok ("no dates here".toList)) ::
            [(("c.com".toList), Except.error ("down".toList))]) =
      checkDomainsExpiry 0 [(("a.com".toList), Except.error ("down".toList))] ++
        DomainEvent.noExpiry ("b.com".toList) ::
          checkDomainsExpiry 0 [(("c.com".toList), Except.error ("down".toList))] :=
  missing_expiry_reports_and_continues 0 _ _ _ _ (by decide)

/-- C7: when the expiry pattern matches but the matched string fails strict
calendar parsing (the pattern does not validate month/day ranges), the parse
error is reported, the result is treated as an absent expiry date, and the
domain receives no classification. -/
theorem parse_error_treated_as_absent (nowNs : Int) (dom text m : List Char)
    (hm : findExpiryMatch text = some m) (hp : parseDate m = none) :
    hitsParseErrorBranch text = true ∧
      extractExpiryDateFromWhois text = zeroDate ∧
      checkDomain nowNs dom (Except.ok text) = DomainEvent.noExpiry dom := by
  have he : extractExpiryDateFromWhois text = zeroDate := by
    simp [extractExpiryDateFromWhois, hm, hp]
  refine ⟨?_, he, ?_⟩
  · simp [hitsParseErrorBranch, hm, hp]
  · simp [checkDomain, he, dateIsZero]

/-- Witness for C7: the text `Expiration Date: 2020-13-45` matches the pattern
with date string `2020-13-45`, which fails calendar parsing (month 13). -/
theorem parse_error_treated_as_absent_witness :
    hitsParseErrorBranch ("Expiration Date: 2020-13-45".toList) = true ∧
      extractExpiryDateFromWhois ("Expiration Date: 2020-13-45".toList) = zeroDate ∧
      checkDomain 0 ("d.com".toList)
        (Except.ok ("Expiration Date: 2020-13-45".toList)) =
        DomainEvent.noExpiry ("d.com".toList) :=
  parse_error_treated_as_absent 0 ("d.com".toList) _ ("2020-13-45".toList)
    (by decide) (by decide)

/-- C10: a registration text whose first pattern-matched date string is
`0001-01-01` parses successfully to the zero time value, which is
indistinguishable from "no match": the domain is reported as having no expiry
date and receives no classification. -/
theorem zero_date_indistinguishable (nowNs : Int) (dom text : List Char)
    (hm : findExpiryMatch text = some ("0001-01-01".toList)) :
    parseDate ("0001-01-01".toList) = some zeroDate ∧
      extractExpiryDateFromWhois text = zeroDate ∧
      checkDomain nowNs dom (Except.ok text) = DomainEvent.noExpiry dom := by
  have hp : parseDate ("0001-01-01".toList) = some zeroDate := by decide
  have he : extractExpiryDateFromWhois text = zeroDate := by
    simp only [extractExpiryDateFromWhois, hm]
    decide
  exact ⟨hp, he, by simp [checkDomain, he, dateIsZero]⟩

/-- Witness for C10: the text `Expiry Date: 0001-01-01` contains a matching,
successfully parsed expiry date, yet is reported as having none. -/
theorem zero_date_indistinguishable_witness :
    parseDate ("0001-01-01".toList) = some zeroDate ∧
      extractExpiryDateFromWhois ("Expiry Date: 0001-01-01".toList) = zeroDate ∧
      checkDomain 0 ("z.org".toList)
        (Except.ok ("Expiry Date: 0001-01-01".toList)) =
        DomainEvent.noExpiry ("z.org".toList) :=
  zero_date_indistinguishable 0 ("z.org".toList) _ (by decide)

end Gemails
